import Mathlib

/-!
# Verification of the nirvaha session/profile core

A shallow embedding of the code in `src/contexts/AuthContext.jsx` (session
store, profile reconciler) and `src/pages/Profile.jsx` (statistics
aggregator), with theorems checking the natural-language specification
against it.

Conventions of the embedding:
* JS timestamps are integers (milliseconds); a *local calendar day* is the
  floor of a timestamp by `DAY_MS` (this models `toLocaleDateString` /
  `setHours(0,0,0,0)` normalisation: any monotone timestamp-to-day map is
  equivalent for the properties below).  Day indices are anchored so that
  day 0 falls on a Sunday, matching JS `getDay()` (0 = Sunday); the anchor
  is an affine choice and irrelevant to the claims.
* JS strings that flow through `||` defaults are plain `String`s where
  `""` models both an absent (`undefined`) and an empty field — `||`
  treats the two identically (helper `jsOr`).
* Fallible external calls are passed in as explicit outcomes
  (`Except`/flags); React state setters become explicit state passing on
  the `SessionState` record.
-/

namespace Nirvaha

/-! ## Statistics aggregator (`src/pages/Profile.jsx`) -/

/-- One row of the `meditation_sessions` table as used by the aggregator:
`{completed_at, duration_minutes, completed}`.  `completed_at` is a
millisecond timestamp, `none` when the field is missing. -/
structure MedSession where
  completed_at : Option Int
  duration_minutes : Nat
  completed : Bool
deriving DecidableEq

/-- Milliseconds per day. -/
def DAY_MS : Int := 86400000

/-- Local calendar day of a timestamp (models
`new Date(t).toLocaleDateString()` / midnight normalisation). -/
def localDay (t : Int) : Int := t.fdiv DAY_MS

/-- Insert a day into an ascending duplicate-free list, keeping it
ascending and duplicate-free. -/
def insertSortedDistinct (d : Int) : List Int → List Int
  | [] => [d]
  | a :: rest =>
    if d < a then d :: a :: rest
    else if d = a then a :: rest
    else a :: insertSortedDistinct d rest

/-- Ascending duplicate-free version of a list of days. -/
def sortedDistinct : List Int → List Int
  | [] => []
  | d :: rest => insertSortedDistinct d (sortedDistinct rest)

/-- The local calendar days of the sessions that do carry a
`completed_at` timestamp (sessions without one are skipped by the
`forEach` grouping in `calculateStreakDays`). -/
def rawDays (ss : List MedSession) : List Int :=
  (ss.filterMap (·.completed_at)).map localDay

/-- The `dates` array of `calculateStreakDays`: sessions sorted by
`completed_at` ascending, grouped by local calendar day — i.e. the
distinct days in ascending order. -/
def distinctSortedDays (ss : List MedSession) : List Int :=
  sortedDistinct (rawDays ss)

/-- The backward-walking loop of `calculateStreakDays` on the
date list in *descending* order: count while consecutive days differ by
exactly one, stop at the first gap (`maxStreak` equals the final
`currentStreak` since both only grow together). -/
def descRun : List Int → Nat
  | [] => 0
  | [_] => 1
  | a :: b :: rest => if a - b = 1 then 1 + descRun (b :: rest) else 1

/-- `calculateStreakDays(sessions)` from `Profile.jsx`.  `today` is the
current local day index (the code derives it from the clock and
normalises to midnight; `yesterday` is `today - 1`).  `none` models a
null `sessions` argument. -/
def calculateStreakDays (sessions : Option (List MedSession)) (today : Int) : Nat :=
  match sessions with
  | none => 0
  | some ss =>
    if ss.isEmpty then 0
    else
      match (distinctSortedDays ss).reverse with
      | [] => 0
      | d :: ds =>
        if d < today - 1 then 0
        else descRun (d :: ds)

/-- Spec-side run length: starting from day `d`, keep walking backward
while the previous day (`d - 1`) is among the session days; `fuel` bounds
the recursion (any `fuel ≥` the number of days is enough). -/
def runLen (dates : List Int) : Int → Nat → Nat
  | _, 0 => 1
  | d, fuel + 1 => if (d - 1) ∈ dates then 1 + runLen dates (d - 1) fuel else 1

/-- The streak computation as the specification words it: group sessions
by local calendar date of `completed_at`; if the most recent distinct
date is strictly older than yesterday the result is 0; otherwise the
length of the run of distinct dates walking backward from the most
recent while consecutive dates differ by exactly one day. -/
def streakSpec (sessions : Option (List MedSession)) (today : Int) : Nat :=
  match sessions with
  | none => 0
  | some ss =>
    match rawDays ss with
    | [] => 0
    | t :: ts =>
      let mostRecent := ts.foldl max t
      if mostRecent < today - 1 then 0
      else runLen (t :: ts) mostRecent (t :: ts).length

/-- JS `getDay()` of a day index: 0 = Sunday … 6 = Saturday (day 0 is
anchored on a Sunday). -/
def dayOfWeek (d : Int) : Int := d.emod 7

/-- The `weekDates` array of `calculateWeeklyProgress`: for bucket
`i` (0 = "Mon" … 6 = "Sun"), `dayOffset` is `i + 1` except `0` for the
"Sun" bucket, and the bucket date is `today - (getDay(today) - dayOffset)`. -/
def weekDates (today : Int) : List Int :=
  (List.range 7).map fun i =>
    let dayOffset : Int := if i = 6 then 0 else (i : Int) + 1
    let diff : Int := dayOfWeek today - dayOffset
    today - diff

/-- Index of the first occurrence of a day in a bucket-date list (the
`for … break` scan of `calculateWeeklyProgress`). -/
def firstIdxFrom : List Int → Int → Option Nat
  | [], _ => none
  | a :: rest, d => if a = d then some 0 else (firstIdxFrom rest d).map (· + 1)

/-- One step of the `sessions.forEach` accumulation in
`calculateWeeklyProgress`: a session with a `completed_at` day equal to
some week date adds its `duration_minutes` to the first matching bucket. -/
def addSessionToWeek (wd : List Int) (acc : List Nat) (s : MedSession) : List Nat :=
  match s.completed_at with
  | none => acc
  | some t =>
    match firstIdxFrom wd (localDay t) with
    | none => acc
    | some i => acc.set i (acc.getD i 0 + s.duration_minutes)

/-- `calculateWeeklyProgress(sessions)` from `Profile.jsx`, as the list of
per-bucket minutes (buckets 0–6 carry the labels "Mon" … "Sun"; the
initial `weeklyProgressData` state returned for a null/empty input is the
all-zero week). -/
def calculateWeeklyProgress (sessions : Option (List MedSession)) (today : Int) : List Nat :=
  match sessions with
  | none => List.replicate 7 0
  | some ss =>
    if ss.isEmpty then List.replicate 7 0
    else ss.foldl (addSessionToWeek (weekDates today)) (List.replicate 7 0)

/-- Minutes a single session contributes to the bucket of day `d`. -/
def weekContribution (d : Int) (s : MedSession) : Nat :=
  match s.completed_at with
  | none => 0
  | some t => if localDay t = d then s.duration_minutes else 0

/-- The Monday on or before `today`. -/
def mondayOfWeek (today : Int) : Int := today - (dayOfWeek today + 6).emod 7

/-- The claim's bucket dates: the current Monday–Sunday week, bucket `i`
being `Monday + i`. -/
def weekDatesSpec (today : Int) : List Int :=
  (List.range 7).map fun i => mondayOfWeek today + (i : Int)

/-- Weekly bucketing as the claim words it: partition sessions into the
current Monday–Sunday week by calendar date and sum `duration_minutes`
per weekday, missing days being zero. -/
def weeklyProgressSpec (sessions : Option (List MedSession)) (today : Int) : List Nat :=
  match sessions with
  | none => List.replicate 7 0
  | some ss => (weekDatesSpec today).map fun d => (ss.map (weekContribution d)).sum

/-- The Sunday on or before `today`. -/
def sundayOnOrBefore (today : Int) : Int := today - dayOfWeek today

/-- The bucket dates the code actually uses, in closed form: buckets
"Mon" … "Sat" hold the Monday through Saturday after the Sunday on or
before `today`, and the "Sun" bucket holds that *preceding* (or same-day)
Sunday itself — i.e. the Sunday–Saturday week containing `today`,
displayed with its first day last. -/
def weekDatesAmended (today : Int) : List Int :=
  (List.range 7).map fun i =>
    if i = 6 then sundayOnOrBefore today else sundayOnOrBefore today + (i : Int) + 1

/-- Weekly bucketing as amended: per-bucket sums over the
Sunday–Saturday week containing `today` (Sun bucket first day of that
week), missing days zero. -/
def weeklyProgressAmended (sessions : Option (List MedSession)) (today : Int) : List Nat :=
  match sessions with
  | none => List.replicate 7 0
  | some ss => (weekDatesAmended today).map fun d => (ss.map (weekContribution d)).sum

/-! ## Session store and profile reconciler (`src/contexts/AuthContext.jsx`) -/

/-- JS `a || b` on strings: `""` (modelling both an absent and an empty
field, which `||` treats identically) falls through to the default. -/
def jsOr (a b : String) : String := if a = "" then b else a

/-- `email.split('@')[0]`: the text before the first `@` (the whole
string when there is none). -/
def emailLocalPart (email : String) : String :=
  String.mk (email.toList.takeWhile (fun c => c ≠ '@'))

/-- `user.user_metadata` as read by `upsertProfile`. -/
structure UserMeta where
  name : String
  full_name : String
  avatar_url : String
  username : String
deriving DecidableEq

/-- An authenticated identity as returned by the external auth service
(`app_provider` models `app_metadata.provider`, `""` when absent). -/
structure User where
  id : String
  email : String
  user_metadata : UserMeta
  app_provider : String
deriving DecidableEq

/-- A session object from the auth service; only its `user` field is read
by the code under verification. -/
structure Session where
  user : User
deriving DecidableEq

/-- A row of the `profiles` table. -/
structure Profile where
  id : String
  email : String
  username : String
  name : String
  avatar_url : String
  provider : String
  updated_at : Int
deriving DecidableEq

/-- The `profiles` table of the external store. -/
structure DB where
  profiles : List Profile
deriving DecidableEq

/-- The in-memory Session State: `{currentUser, userProfile, loading,
error}` of `AuthProvider` (identity, profile, loading flag, last error). -/
structure SessionState where
  currentUser : Option User
  userProfile : Option Profile
  loading : Bool
  error : Option String
deriving DecidableEq

/-- Injected outcomes of the external service calls that can fail
independently of the table contents: `insertFails` is the `profiles`
upsert call reporting an error. -/
structure Env where
  insertFails : Bool
deriving DecidableEq

/-- `.from('profiles').select('*').eq('id', userId).single()`: `single()`
reports an error unless exactly one row matches. -/
def dbSelectById (db : DB) (userId : String) : Option Profile :=
  match db.profiles.filter (fun p => p.id = userId) with
  | [p] => some p
  | _ => none

/-- `.from('profiles').select('email').eq('username', username).single()`. -/
def dbSelectEmailByUsername (db : DB) (username : String) : Option String :=
  match db.profiles.filter (fun p => p.username = username) with
  | [p] => some p.email
  | _ => none

/-- Modelled from the spec: the external profile store's
`upsert(row, { onConflict: 'id' })` — the store itself is not part of the
repository; spec §4.2 step 4 fixes its conflict policy as "on id
conflict, no-op", so an existing row with the same id is left untouched
and otherwise the row is inserted. -/
def dbUpsert (db : DB) (row : Profile) : DB :=
  if db.profiles.any (fun p => p.id = row.id) then db
  else ⟨db.profiles ++ [row]⟩

/-- `fetchUserProfile(userId)`: returns the row, or `null` while
recording the fetch error in the session state (a missing row makes
`single()` error; a transport failure produces the same null-and-error
outcome). -/
def fetchUserProfile (db : DB) (userId : String) (st : SessionState) :
    Option Profile × SessionState :=
  match dbSelectById db userId with
  | some p => (some p, st)
  | none => (none, { st with error := some "Failed to fetch user profile. Please try again later." })

/-- The username derivation of `upsertProfile` (lines 64–69): the
provider-supplied hint if non-empty, else the email local part for
non-"email" providers, else empty. -/
def deriveUsername (u : User) : String :=
  let provider := jsOr u.app_provider "email"
  let username := jsOr u.user_metadata.username ""
  if username = "" ∧ provider ≠ "email" then emailLocalPart u.email else username

/-- The row `upsertProfile` inserts for an identity with no existing
profile. -/
def newProfileRow (u : User) (now : Int) : Profile :=
  { id := u.id
    email := u.email
    username := deriveUsername u
    name := jsOr u.user_metadata.name (jsOr u.user_metadata.full_name "")
    avatar_url := jsOr u.user_metadata.avatar_url ""
    provider := jsOr u.app_provider "email"
    updated_at := now }

/-- `upsertProfile(user)`: fetch the profile by id; if found, publish and
return it; otherwise derive the fields, upsert the new row (an error
leaves the profile null), re-fetch, and publish whatever resulted
(`setUserProfile(profile)` runs on every non-throwing path, also with a
null profile). -/
def upsertProfile (env : Env) (user : Option User) (now : Int) (db : DB)
    (st : SessionState) : Option Profile × DB × SessionState :=
  match user with
  | none => (none, db, { st with error := some "No user data provided for profile creation." })
  | some u =>
    match fetchUserProfile db u.id st with
    | (some p, st) => (some p, db, { st with userProfile := some p })
    | (none, st) =>
      if env.insertFails then
        (none, db, { st with error := some "Failed to create user profile. Please try again.",
                             userProfile := none })
      else
        let db := dbUpsert db (newProfileRow u now)
        match fetchUserProfile db u.id st with
        | (p1, st) => (p1, db, { st with userProfile := p1 })

/-- `logout()`: `setLoading(true); setError(null)`, then the external
revoke (`supabase.auth.signOut`).  A revoke error is thrown *before* the
local clearing, so the catch records it and rethrows with the user and
profile untouched; only on revoke success are `currentUser`/`userProfile`
cleared (the auxiliary localStorage/cookie clearing carries no Session
State and is not modelled).  `finally` resets `loading`. -/
def logout (revoke : Except String Unit) (st : SessionState) :
    Except String Unit × SessionState :=
  let st := { st with loading := true, error := none }
  match revoke with
  | .error msg => (.error msg, { st with error := some msg, loading := false })
  | .ok _ => (.ok (), { st with currentUser := none, userProfile := none, loading := false })

/-- The `onAuthStateChange` callback (lines 411–435).  `m0` is the
`mounted` flag at entry; `m1` is its value after the awaited profile
fetch (the only suspension point before the guarded `setUserProfile`);
the checks in the null-session branch re-read the flag with no
intervening await, hence see `m0`.  The writes inside `upsertProfile`
carry no mounted guard in the source and are modelled accordingly. -/
def onAuthStateChange (env : Env) (event : String) (session : Option Session)
    (m0 m1 : Bool) (now : Int) (db : DB) (st : SessionState) :
    SessionState × DB :=
  if !m0 then (st, db)
  else
    let st := { st with currentUser := session.map (·.user) }
    match session with
    | some s =>
      if event = "SIGNED_IN" ∨ event = "USER_UPDATED" then
        match fetchUserProfile db s.user.id st with
        | (profile, st) =>
          if profile.isNone ∨ event = "SIGNED_IN" then
            match upsertProfile env (some s.user) now db st with
            | (_, db, st) => (st, db)
          else
            if !m1 then (st, db)
            else ({ st with userProfile := profile }, db)
      else (st, db)
    | none =>
      if !m0 then (st, db)
      else ({ st with userProfile := none }, db)

/-- The result of a `login` call: the returned/thrown value, the final
session state, the final table state, and how many password-authentication
requests (`signInWithPassword`) were issued to the auth service. -/
structure LoginResult where
  result : Except String User
  st : SessionState
  db : DB
  authCalls : Nat

/-- `login({email, username, password})` (lines 152–219).  `auth` is the
external `signInWithPassword` outcome; `""` models an absent
email/username argument (JS truthiness).  A successful authentication
whose reconciliation yields no profile throws
`"Failed to load user profile"`; an unknown username throws
`"Username not found"` before any auth-service call; the catch re-records
the message and `finally` resets `loading`. -/
def login (auth : String → String → Except String User) (env : Env)
    (email username password : String) (now : Int) (db : DB)
    (st : SessionState) : LoginResult :=
  let st := { st with loading := true, error := none }
  if email ≠ "" then
    match auth email password with
    | .error msg => ⟨.error msg, { st with error := some msg, loading := false }, db, 1⟩
    | .ok user =>
      match upsertProfile env (some user) now db st with
      | (none, db, st) =>
        ⟨.error "Failed to load user profile",
         { st with error := some "Failed to load user profile", loading := false }, db, 1⟩
      | (some _, db, st) => ⟨.ok user, { st with loading := false }, db, 1⟩
  else if username ≠ "" then
    match dbSelectEmailByUsername db username with
    | none =>
      ⟨.error "Username not found",
       { st with error := some "Username not found", loading := false }, db, 0⟩
    | some em =>
      match auth em password with
      | .error msg => ⟨.error msg, { st with error := some msg, loading := false }, db, 1⟩
      | .ok user =>
        match upsertProfile env (some user) now db st with
        | (none, db, st) =>
          ⟨.error "Failed to load user profile",
           { st with error := some "Failed to load user profile", loading := false }, db, 1⟩
        | (some _, db, st) => ⟨.ok user, { st with loading := false }, db, 1⟩
  else
    ⟨.error "Either email or username is required",
     { st with error := some "Either email or username is required", loading := false }, db, 0⟩

/-! ## Interleaved reconciliation (for the idempotence-under-race claim)

`upsertProfile`, restricted to executions in which the service calls
succeed, performs at most three store operations with suspension points
between them: fetch by id, upsert the new row, re-fetch.  Two runs for
the same identity are modelled as small-step programs over the shared
table, interleaved by an arbitrary schedule. -/

/-- One reconciliation run: `pc` 0 = about to fetch, 1 = fetch found
nothing and the upsert is pending, 2 = upserted and the re-fetch is
pending, 3 = done with `result` as the profile it would publish. -/
structure RunState where
  pc : Nat
  result : Option Profile
deriving DecidableEq

/-- One atomic store operation of a reconciliation run. -/
def reconStep (u : User) (now : Int) (r : RunState) (db : DB) : RunState × DB :=
  match r.pc with
  | 0 =>
    match dbSelectById db u.id with
    | some p => (⟨3, some p⟩, db)
    | none => (⟨1, none⟩, db)
  | 1 => (⟨2, none⟩, dbUpsert db (newProfileRow u now))
  | 2 => (⟨3, dbSelectById db u.id⟩, db)
  | _ => (r, db)

/-- Two reconciliation runs racing over the shared table. -/
structure Config where
  r1 : RunState
  r2 : RunState
  db : DB
deriving DecidableEq

/-- Let the run chosen by `turn` perform its next store operation. -/
def stepConfig (u : User) (now1 now2 : Int) (turn : Bool) (c : Config) : Config :=
  if turn then
    match reconStep u now1 c.r1 c.db with
    | (r, db) => ⟨r, c.r2, db⟩
  else
    match reconStep u now2 c.r2 c.db with
    | (r, db) => ⟨c.r1, r, db⟩

/-- Run an interleaving schedule (each entry names the run that moves). -/
def execSchedule (u : User) (now1 now2 : Int) : List Bool → Config → Config
  | [], c => c
  | b :: rest, c => execSchedule u now1 now2 rest (stepConfig u now1 now2 b c)

/-- Number of `profiles` rows keyed by `userId`. -/
def countId (db : DB) (userId : String) : Nat :=
  (db.profiles.filter (fun p => p.id = userId)).length

/-- Invariant of one racing reconciliation run: past the upsert the run
sees exactly one row for the identity, and a finished run carries a
profile. -/
def RunInv (userId : String) (db : DB) (r : RunState) : Prop :=
  ((r.pc = 2 ∨ r.pc = 3) → countId db userId = 1) ∧ (r.pc = 3 → r.result.isSome = true)

/-- Invariant of the interleaved pair: at most one row for the identity,
and both runs satisfy `RunInv`. -/
def Inv (userId : String) (c : Config) : Prop :=
  countId c.db userId ≤ 1 ∧ RunInv userId c.db c.r1 ∧ RunInv userId c.db c.r2

/-! ## Lemmas about the statistics embedding -/

theorem mem_insertSortedDistinct {x d : Int} {l : List Int} :
    x ∈ insertSortedDistinct d l ↔ x = d ∨ x ∈ l := by
  induction l with
  | nil => simp [insertSortedDistinct]
  | cons a rest ih =>
    simp only [insertSortedDistinct]
    split
    · simp [List.mem_cons]
    · split
      · rename_i hlt heq
        subst heq
        simp [List.mem_cons]
      · simp only [List.mem_cons, ih]
        tauto

theorem head_insertSortedDistinct (d : Int) (l : List Int) :
    (insertSortedDistinct d l).head? = some d ∨ (insertSortedDistinct d l).head? = l.head? := by
  cases l with
  | nil => simp [insertSortedDistinct]
  | cons a rest =>
    simp only [insertSortedDistinct]
    split
    · simp
    · split
      · simp
      · simp

theorem chain_lt_insertSortedDistinct {d : Int} {l : List Int}
    (h : l.Chain' (· < ·)) : (insertSortedDistinct d l).Chain' (· < ·) := by
  induction l with
  | nil => simp [insertSortedDistinct]
  | cons a rest ih =>
    have hrest : rest.Chain' (· < ·) := (List.chain'_cons'.1 h).2
    simp only [insertSortedDistinct]
    split
    · exact List.chain'_cons.2 ⟨by assumption, h⟩
    · split
      · exact h
      · rename_i h1 h2
        have ha : a < d := by omega
        refine List.chain'_cons'.2 ⟨?_, ih hrest⟩
        intro y hy
        rcases head_insertSortedDistinct d rest with hh | hh
        · rw [hh] at hy
          simp at hy
          omega
        · rw [hh] at hy
          have := (List.chain'_cons'.1 h).1 y hy
          omega

theorem length_insertSortedDistinct (d : Int) (l : List Int) :
    (insertSortedDistinct d l).length ≤ l.length + 1 := by
  induction l with
  | nil => simp [insertSortedDistinct]
  | cons a rest ih =>
    simp only [insertSortedDistinct]
    split
    · simp
    · split
      · simp
      · simpa using Nat.succ_le_succ ih

theorem insertSortedDistinct_ne_nil (d : Int) (l : List Int) :
    insertSortedDistinct d l ≠ [] := by
  cases l with
  | nil => simp [insertSortedDistinct]
  | cons a rest =>
    simp only [insertSortedDistinct]
    split
    · simp
    · split
      · simp
      · simp

theorem mem_sortedDistinct {x : Int} {l : List Int} : x ∈ sortedDistinct l ↔ x ∈ l := by
  induction l with
  | nil => simp [sortedDistinct]
  | cons a rest ih => simp [sortedDistinct, mem_insertSortedDistinct, ih]

theorem chain_sortedDistinct (l : List Int) : (sortedDistinct l).Chain' (· < ·) := by
  induction l with
  | nil => simp [sortedDistinct]
  | cons a rest ih => exact chain_lt_insertSortedDistinct ih

theorem length_sortedDistinct (l : List Int) : (sortedDistinct l).length ≤ l.length := by
  induction l with
  | nil => simp [sortedDistinct]
  | cons a rest ih =>
    calc (sortedDistinct (a :: rest)).length ≤ (sortedDistinct rest).length + 1 :=
          length_insertSortedDistinct _ _
      _ ≤ rest.length + 1 := by omega
      _ = (a :: rest).length := by simp

theorem sortedDistinct_eq_nil_iff {l : List Int} : sortedDistinct l = [] ↔ l = [] := by
  cases l with
  | nil => simp [sortedDistinct]
  | cons a rest => simp [sortedDistinct, insertSortedDistinct_ne_nil]

theorem desc_head_gt {d : Int} {ds : List Int}
    (h : (d :: ds).Chain' (fun a b => b < a)) : ∀ x ∈ ds, x < d := by
  induction ds generalizing d with
  | nil => simp
  | cons e rest ih =>
    intro x hx
    have h1 : e < d := (List.chain'_cons.1 h).1
    have h2 : (e :: rest).Chain' (fun a b => b < a) := (List.chain'_cons.1 h).2
    rcases List.mem_cons.1 hx with rfl | hx'
    · exact h1
    · exact lt_trans (ih h2 x hx') h1

theorem foldl_max_mem (t : Int) (ts : List Int) : ts.foldl max t ∈ t :: ts := by
  induction ts generalizing t with
  | nil => simp
  | cons b rest ih =>
    simp only [List.foldl_cons]
    rcases List.mem_cons.1 (ih (max t b)) with h | h
    · rw [h]
      rcases max_choice t b with h2 | h2 <;> simp [h2]
    · simp [List.mem_cons, h]

theorem le_foldl_max (t : Int) (ts : List Int) : ∀ x ∈ t :: ts, x ≤ ts.foldl max t := by
  induction ts generalizing t with
  | nil => simp
  | cons b rest ih =>
    intro x hx
    simp only [List.foldl_cons]
    rcases List.mem_cons.1 hx with rfl | h
    · exact le_trans (le_max_left x b) (ih (max x b) _ (by simp))
    · rcases List.mem_cons.1 h with rfl | h2
      · exact le_trans (le_max_right t x) (ih (max t x) _ (by simp))
      · exact ih (max t b) x (by simp [h2])

theorem descRun_eq_runLen (S : List Int) :
    ∀ (ds : List Int) (d : Int) (fuel : Nat),
      (d :: ds).Chain' (fun a b => b < a) →
      (∀ x ∈ S, x ∈ d :: ds ∨ d < x) →
      (∀ x ∈ ds, x ∈ S) →
      ds.length ≤ fuel →
      descRun (d :: ds) = runLen S d fuel := by
  intro ds
  induction ds with
  | nil =>
    intro d fuel hchain hS hds hfuel
    cases fuel with
    | zero => rfl
    | succ f =>
      show descRun [d] = if (d - 1) ∈ S then 1 + runLen S (d - 1) f else 1
      rw [if_neg]
      · rfl
      · intro hmem
        rcases hS _ hmem with h | h
        · rw [List.mem_singleton] at h
          omega
        · omega
  | cons e rest ih =>
    intro d fuel hchain hS hds hfuel
    obtain ⟨f, rfl⟩ : ∃ f, fuel = f + 1 := by
      cases fuel
      · simp at hfuel
      · exact ⟨_, rfl⟩
    have hed : e < d := (List.chain'_cons.1 hchain).1
    have hchain2 : (e :: rest).Chain' (fun a b => b < a) := (List.chain'_cons.1 hchain).2
    have hkey : (d - 1) ∈ S ↔ d - e = 1 := by
      constructor
      · intro hmem
        rcases hS _ hmem with h | h
        · rcases List.mem_cons.1 h with h1 | h1
          · omega
          · rcases List.mem_cons.1 h1 with h2 | h2
            · omega
            · have := desc_head_gt hchain2 _ h2
              omega
        · omega
      · intro h
        have : e = d - 1 := by omega
        rw [← this]
        exact hds e (by simp)
    show (if d - e = 1 then 1 + descRun (e :: rest) else 1)
        = if (d - 1) ∈ S then 1 + runLen S (d - 1) f else 1
    by_cases hde : d - e = 1
    · rw [if_pos hde, if_pos (hkey.2 hde)]
      have he : d - 1 = e := by omega
      rw [he]
      congr 1
      refine ih e f hchain2 ?_ ?_ ?_
      · intro x hx
        rcases hS x hx with h | h
        · rcases List.mem_cons.1 h with rfl | h1
          · right; exact hed
          · left; exact h1
        · right; omega
      · intro x hx
        exact hds x (by simp [hx])
      · simpa using hfuel
    · rw [if_neg hde, if_neg (fun h => hde (hkey.1 h))]

theorem streak_code_eq_spec (ss : List MedSession) (today : Int) :
    calculateStreakDays (some ss) today = streakSpec (some ss) today := by
  simp only [calculateStreakDays, streakSpec]
  by_cases hss : ss.isEmpty = true
  · rw [if_pos hss]
    have : ss = [] := by simpa using hss
    subst this
    rfl
  · rw [if_neg hss]
    rcases hraw : rawDays ss with _ | ⟨t, ts⟩
    · have hsd : distinctSortedDays ss = [] := by
        simp [distinctSortedDays, hraw, sortedDistinct]
      simp [hsd, hraw]
    · have hchain := chain_sortedDistinct (rawDays ss)
      rw [hraw] at hchain
      have hnil : sortedDistinct (t :: ts) ≠ [] := insertSortedDistinct_ne_nil _ _
      rcases hrev : (sortedDistinct (t :: ts)).reverse with _ | ⟨d, ds⟩
      · rw [List.reverse_eq_nil_iff] at hrev
        exact absurd hrev hnil
      · have hdesc : (d :: ds).Chain' (fun a b => b < a) := by
          rw [← hrev]
          exact List.chain'_reverse.2 hchain
        have hmemrev : ∀ x : Int, x ∈ d :: ds ↔ x ∈ t :: ts := by
          intro x
          rw [← hrev, List.mem_reverse, mem_sortedDistinct]
        have hmax : ts.foldl max t = d := by
          have h1 : d ≤ ts.foldl max t := le_foldl_max t ts d ((hmemrev d).1 (by simp))
          have h2 : ts.foldl max t ≤ d := by
            have hm : ts.foldl max t ∈ d :: ds := (hmemrev _).2 (foldl_max_mem t ts)
            rcases List.mem_cons.1 hm with heq | hm2
            · omega
            · exact le_of_lt (desc_head_gt hdesc _ hm2)
          omega
        have hlen : ds.length ≤ (t :: ts).length := by
          have hle := length_sortedDistinct (t :: ts)
          have hrevlen : (d :: ds).length = (sortedDistinct (t :: ts)).length := by
            rw [← hrev, List.length_reverse]
          simp only [List.length_cons] at hrevlen hle ⊢
          omega
        simp only [distinctSortedDays, hraw, hrev, hmax]
        by_cases hcond : d < today - 1
        · rw [if_pos hcond, if_pos hcond]
        · rw [if_neg hcond, if_neg hcond]
          refine descRun_eq_runLen (t :: ts) ds d (t :: ts).length hdesc ?_ ?_ hlen
          · intro x hx
            left
            rw [hmemrev]
            exact hx
          · intro x hx
            rw [← hmemrev]
            exact List.mem_cons_of_mem d hx

theorem firstIdxFrom_eq_none {wd : List Int} {d : Int} (h : ∀ x ∈ wd, x ≠ d) :
    firstIdxFrom wd d = none := by
  induction wd with
  | nil => rfl
  | cons a rest ih =>
    simp only [firstIdxFrom]
    rw [if_neg (h a (by simp)), ih (fun x hx => h x (by simp [hx]))]
    rfl

theorem addSessionToWeek_nil (acc : List Nat) (s : MedSession) :
    addSessionToWeek [] acc s = acc := by
  cases h : s.completed_at <;> simp [addSessionToWeek, firstIdxFrom, h]

theorem foldl_addSessionToWeek_nil (ss : List MedSession) (acc : List Nat) :
    ss.foldl (addSessionToWeek []) acc = acc := by
  induction ss generalizing acc with
  | nil => rfl
  | cons s ss ih => simp [List.foldl_cons, addSessionToWeek_nil, ih]

theorem addSessionToWeek_cons (w : Int) (wd : List Int) (a : Nat) (acc : List Nat)
    (s : MedSession) (hw : w ∉ wd) :
    addSessionToWeek (w :: wd) (a :: acc) s
      = (a + weekContribution w s) :: addSessionToWeek wd acc s := by
  cases h : s.completed_at with
  | none => simp [addSessionToWeek, weekContribution, h]
  | some t =>
    simp only [addSessionToWeek, weekContribution, h, firstIdxFrom]
    by_cases hwt : w = localDay t
    · rw [if_pos hwt]
      have hnone : firstIdxFrom wd (localDay t) = none := by
        apply firstIdxFrom_eq_none
        intro x hx hxd
        apply hw
        rw [hwt, ← hxd]
        exact hx
      rw [hnone]
      simp [hwt.symm]
    · rw [if_neg hwt]
      have hcontrib : (if localDay t = w then s.duration_minutes else 0) = 0 :=
        if_neg (fun hh => hwt hh.symm)
      rcases hidx : firstIdxFrom wd (localDay t) with _ | i
      · simp [hcontrib]
      · simp [hcontrib, List.getD_cons_succ, List.set_cons_succ]

theorem foldl_addSessionToWeek_cons (ss : List MedSession) :
    ∀ (w : Int) (wd : List Int) (a : Nat) (acc : List Nat), w ∉ wd →
      ss.foldl (addSessionToWeek (w :: wd)) (a :: acc)
        = (a + (ss.map (weekContribution w)).sum) :: ss.foldl (addSessionToWeek wd) acc := by
  induction ss with
  | nil =>
    intro w wd a acc hw
    simp
  | cons s ss ih =>
    intro w wd a acc hw
    simp only [List.foldl_cons, List.map_cons, List.sum_cons]
    rw [addSessionToWeek_cons w wd a acc s hw, ih w wd _ _ hw]
    congr 1
    omega

theorem foldl_week_general (ss : List MedSession) :
    ∀ wd : List Int, wd.Nodup →
      ss.foldl (addSessionToWeek wd) (List.replicate wd.length 0)
        = wd.map (fun d => (ss.map (weekContribution d)).sum) := by
  intro wd
  induction wd with
  | nil =>
    intro _
    simp [foldl_addSessionToWeek_nil]
  | cons w wd ih =>
    intro hnd
    rw [List.nodup_cons] at hnd
    simp only [List.length_cons, List.replicate_succ, List.map_cons]
    rw [foldl_addSessionToWeek_cons ss w wd 0 _ hnd.1, ih hnd.2]
    simp

theorem weekDates_eq_amended (today : Int) : weekDates today = weekDatesAmended today := by
  have h7 : List.range 7 = [0, 1, 2, 3, 4, 5, 6] := rfl
  simp only [weekDates, weekDatesAmended, dayOfWeek, sundayOnOrBefore, h7,
    List.map_cons, List.map_nil]
  norm_num
  omega

theorem weekDates_nodup (today : Int) : (weekDates today).Nodup := by
  rw [weekDates_eq_amended]
  have h7 : List.range 7 = [0, 1, 2, 3, 4, 5, 6] := rfl
  simp only [weekDatesAmended, sundayOnOrBefore, dayOfWeek, h7, List.map_cons, List.map_nil]
  norm_num [List.nodup_cons, List.mem_cons]
  omega

theorem weekDates_length (today : Int) : (weekDates today).length = 7 := rfl

/-! ## Claim theorems: statistics -/

/-- C3: for every session list (and every current day), `calculateStreakDays`
equals the specified computation — group sessions by local calendar date of
`completed_at`; 0 when the most recent distinct date is strictly older than
yesterday; otherwise the length of the backward run of consecutive distinct
dates from the most recent — and in particular distinct dates
{today, yesterday, 2 days ago} give 3, {today, 3 days ago} give 1, and
{5 days ago} alone gives 0. -/
theorem claim_streak_matches_spec :
    (∀ (sessions : Option (List MedSession)) (today : Int),
      calculateStreakDays sessions today = streakSpec sessions today)
    ∧ calculateStreakDays (some [⟨some (1000 * DAY_MS), 10, true⟩,
        ⟨some (999 * DAY_MS), 15, true⟩, ⟨some (998 * DAY_MS), 10, false⟩]) 1000 = 3
    ∧ calculateStreakDays (some [⟨some (1000 * DAY_MS), 10, true⟩,
        ⟨some (997 * DAY_MS), 10, true⟩]) 1000 = 1
    ∧ calculateStreakDays (some [⟨some (995 * DAY_MS), 10, true⟩]) 1000 = 0 := by
  refine ⟨?_, by decide, by decide, by decide⟩
  intro sessions today
  cases sessions with
  | none => rfl
  | some ss => exact streak_code_eq_spec ss today

/-- C10: the streak computation returns 0 for a null session list, an empty
list, and any list whose sessions all lack a `completed_at` timestamp
(such sessions are skipped when grouping by day). -/
theorem claim_streak_degenerate (today : Int) :
    calculateStreakDays none today = 0
    ∧ calculateStreakDays (some []) today = 0
    ∧ ∀ ss : List MedSession, (∀ s ∈ ss, s.completed_at = none) →
        calculateStreakDays (some ss) today = 0 := by
  refine ⟨rfl, rfl, ?_⟩
  intro ss h
  have hraw : rawDays ss = [] := by
    simp only [rawDays, List.map_eq_nil_iff, List.filterMap_eq_nil_iff]
    exact h
  simp only [calculateStreakDays]
  by_cases hss : ss.isEmpty = true
  · rw [if_pos hss]
  · rw [if_neg hss]
    have hsd : distinctSortedDays ss = [] := by
      simp [distinctSortedDays, hraw, sortedDistinct]
    simp [hsd]

/-- C10 witness: a list with one timestamp-less session has streak 0. -/
theorem claim_streak_degenerate_witness :
    calculateStreakDays (some [⟨none, 5, true⟩]) 3 = 0 :=
  (claim_streak_degenerate 3).2.2 [⟨none, 5, true⟩] (by decide)

/-- C4 counterexample: with today = day 3 (a Wednesday; day 0 is a Sunday),
a 20-minute session on day 7 — the Sunday that ends the current
Monday–Sunday week — would land in the "Sun" bucket under the claimed
Monday–Sunday partition, but `calculateWeeklyProgress` leaves every bucket
at 0: its "Sun" bucket holds day 0, the Sunday *before* the week. -/
theorem claim_weekly_monSun_counterexample :
    calculateWeeklyProgress (some [⟨some (7 * DAY_MS), 20, true⟩]) 3 = [0, 0, 0, 0, 0, 0, 0]
    ∧ weeklyProgressSpec (some [⟨some (7 * DAY_MS), 20, true⟩]) 3 = [0, 0, 0, 0, 0, 0, 20]
    ∧ calculateWeeklyProgress (some [⟨some (7 * DAY_MS), 20, true⟩]) 3
        ≠ weeklyProgressSpec (some [⟨some (7 * DAY_MS), 20, true⟩]) 3 := by
  refine ⟨by decide, by decide, by decide⟩

/-- C4 amended: the weekly bucketing partitions sessions into the
Sunday–Saturday week containing today — buckets "Mon" … "Sat" are that
week's Monday through Saturday and the "Sun" bucket is the Sunday on or
before today — summing `duration_minutes` per day with empty days 0;
a session completed on the current Wednesday with duration 20 contributes
20 to the "Wed" bucket and 0 elsewhere. -/
theorem claim_weekly_amended :
    (∀ (sessions : Option (List MedSession)) (today : Int),
      calculateWeeklyProgress sessions today = weeklyProgressAmended sessions today)
    ∧ calculateWeeklyProgress (some [⟨some (3 * DAY_MS), 20, true⟩]) 3
        = [0, 0, 20, 0, 0, 0, 0] := by
  refine ⟨?_, by decide⟩
  intro sessions today
  cases sessions with
  | none => rfl
  | some ss =>
    simp only [calculateWeeklyProgress, weeklyProgressAmended]
    by_cases hss : ss.isEmpty = true
    · rw [if_pos hss]
      have : ss = [] := by simpa using hss
      subst this
      have h7 : List.range 7 = [0, 1, 2, 3, 4, 5, 6] := rfl
      simp [weekDatesAmended, h7, List.replicate]
    · rw [if_neg hss, ← weekDates_eq_amended]
      have hmain := foldl_week_general ss (weekDates today) (weekDates_nodup today)
      rw [weekDates_length] at hmain
      exact hmain

/-! ## Lemmas about the session-store embedding -/

theorem any_id_false_of_filter_nil {l : List Profile} {uid : String}
    (h : l.filter (fun p => p.id = uid) = []) :
    l.any (fun p => p.id = uid) = false := by
  rw [List.any_eq_false]
  intro p hp hpid
  have hmem : p ∈ l.filter (fun p => p.id = uid) :=
    List.mem_filter.2 ⟨hp, by simpa using hpid⟩
  rw [h] at hmem
  exact absurd hmem (List.not_mem_nil p)

theorem dbSelectById_absent {db : DB} {uid : String}
    (h : db.profiles.filter (fun p => p.id = uid) = []) :
    dbSelectById db uid = none := by
  simp [dbSelectById, h]

theorem dbSelectById_found {db : DB} {uid : String} {p : Profile}
    (h : db.profiles.filter (fun q => q.id = uid) = [p]) :
    dbSelectById db uid = some p := by
  simp [dbSelectById, h]

theorem dbUpsert_absent {db : DB} {row : Profile}
    (h : db.profiles.filter (fun p => p.id = row.id) = []) :
    dbUpsert db row = ⟨db.profiles ++ [row]⟩ := by
  rw [dbUpsert, if_neg]
  rw [any_id_false_of_filter_nil h]
  simp

theorem filter_append_single {l : List Profile} {row : Profile} {uid : String}
    (hl : l.filter (fun p => p.id = uid) = []) (hrow : row.id = uid) :
    (l ++ [row]).filter (fun p => p.id = uid) = [row] := by
  rw [List.filter_append, hl]
  simp [hrow]

/-- Reconciliation against an existing row: no table write, the row is
published unchanged. -/
theorem upsertProfile_found {db : DB} {u : User} {p : Profile}
    (hfound : dbSelectById db u.id = some p) (env : Env) (now : Int) (st : SessionState) :
    upsertProfile env (some u) now db st = (some p, db, { st with userProfile := some p }) := by
  simp [upsertProfile, fetchUserProfile, hfound]

/-- Reconciliation with no existing row and a succeeding insert: exactly the
derived row is appended and published (the fetch miss leaves its error note). -/
theorem upsertProfile_absent {db : DB} {u : User}
    (habs : db.profiles.filter (fun p => p.id = u.id) = [])
    {env : Env} (hins : env.insertFails = false) (now : Int) (st : SessionState) :
    upsertProfile env (some u) now db st
      = (some (newProfileRow u now), ⟨db.profiles ++ [newProfileRow u now]⟩,
         { st with error := some "Failed to fetch user profile. Please try again later.",
                   userProfile := some (newProfileRow u now) }) := by
  have hrowid : (newProfileRow u now).id = u.id := rfl
  have hup : dbUpsert db (newProfileRow u now) = ⟨db.profiles ++ [newProfileRow u now]⟩ :=
    dbUpsert_absent (by rwa [hrowid])
  have hsel2 : dbSelectById ⟨db.profiles ++ [newProfileRow u now]⟩ u.id
      = some (newProfileRow u now) :=
    dbSelectById_found (filter_append_single habs hrowid)
  simp [upsertProfile, fetchUserProfile, dbSelectById_absent habs, hins, hup, hsel2]

/-- Reconciliation never touches the identity field. -/
theorem upsertProfile_currentUser (env : Env) (user : Option User) (now : Int)
    (db : DB) (st : SessionState) :
    (upsertProfile env user now db st).2.2.currentUser = st.currentUser := by
  rcases user with _ | u
  · rfl
  · simp only [upsertProfile, fetchUserProfile]
    rcases dbSelectById db u.id with _ | p
    · cases henv : env.insertFails
      · simp only [henv, Bool.false_eq_true, if_false]
        rcases dbSelectById (dbUpsert db (newProfileRow u now)) u.id with _ | q <;> simp
      · simp [henv]
    · simp

/-! ## Claim theorems: session store -/

/-- C1 counterexample: `logout` with a rejecting revoke call does *not* clear
the local Session State to {none, none, false, none}: the identity stays in
place and the error is recorded, because the revoke error is thrown before the
local clearing. -/
theorem claim_logout_counterexample :
    (logout (.error "Network error")
        ⟨some ⟨"u1", "a@b.c", ⟨"", "", "", ""⟩, "email"⟩, none, false, none⟩).2
      ≠ (⟨none, none, false, none⟩ : SessionState)
    ∧ (logout (.error "Network error")
        ⟨some ⟨"u1", "a@b.c", ⟨"", "", "", ""⟩, "email"⟩, none, false, none⟩).2.currentUser
      = some ⟨"u1", "a@b.c", ⟨"", "", "", ""⟩, "email"⟩
    ∧ (logout (.error "Network error")
        ⟨some ⟨"u1", "a@b.c", ⟨"", "", "", ""⟩, "email"⟩, none, false, none⟩).2.error
      = some "Network error" := by
  refine ⟨by decide, rfl, rfl⟩

/-- C1 amended: `logout` clears the Session State to {none, none, false, none}
only when the revoke call succeeds; when the revoke call rejects, identity and
profile are left untouched, the revoke error message is recorded as the last
error, loading is reset, and the error is rethrown. -/
theorem claim_logout_amended (st : SessionState) :
    logout (.ok ()) st = (.ok (), ⟨none, none, false, none⟩)
    ∧ ∀ msg, logout (.error msg) st
        = (.error msg, { st with loading := false, error := some msg }) := by
  exact ⟨rfl, fun msg => rfl⟩

/-- C2: an auth event delivered after the consuming view reports itself torn
down (mounted flag false at entry) performs no state mutation: the handler
returns state and table unchanged for every event kind, session, and later
flag value — in particular the profile reconciliation it would trigger, whose
own writes are unguarded, is never reached. -/
theorem claim_late_event_noop (env : Env) (event : String) (session : Option Session)
    (m1 : Bool) (now : Int) (db : DB) (st : SessionState) :
    onAuthStateChange env event session false m1 now db st = (st, db) := rfl

/-- C6: a login supplying a username (and no email) whose profile lookup finds
no row fails with "Username not found", records it as the last error, and
issues no password-authentication request to the auth service. -/
theorem claim_login_username_not_found (auth : String → String → Except String User)
    (env : Env) (username password : String) (now : Int) (db : DB) (st : SessionState)
    (husr : username ≠ "")
    (hnone : db.profiles.filter (fun p => p.username = username) = []) :
    (login auth env "" username password now db st).result = .error "Username not found"
    ∧ (login auth env "" username password now db st).authCalls = 0
    ∧ (login auth env "" username password now db st).st.error = some "Username not found" := by
  have hsel : dbSelectEmailByUsername db username = none := by
    simp [dbSelectEmailByUsername, hnone]
  simp [login, husr, hsel]

/-- C6 witness: unknown username "bob" over an empty profile table. -/
theorem claim_login_username_not_found_witness :
    (login (fun _ _ => .error "unreachable") ⟨false⟩ "" "bob" "pw" 0 ⟨[]⟩
        ⟨none, none, false, none⟩).result = .error "Username not found"
    ∧ (login (fun _ _ => .error "unreachable") ⟨false⟩ "" "bob" "pw" 0 ⟨[]⟩
        ⟨none, none, false, none⟩).authCalls = 0
    ∧ (login (fun _ _ => .error "unreachable") ⟨false⟩ "" "bob" "pw" 0 ⟨[]⟩
        ⟨none, none, false, none⟩).st.error = some "Username not found" :=
  claim_login_username_not_found (fun _ _ => .error "unreachable") ⟨false⟩ "bob" "pw" 0
    ⟨[]⟩ ⟨none, none, false, none⟩ (by decide) rfl

/-- C7: whenever the external authentication succeeds but the subsequent
profile reconciliation yields no profile, `login` fails with
"Failed to load user profile" instead of reporting success — in the email
branch and in the username branch alike. -/
theorem claim_login_profile_load_failure (auth : String → String → Except String User)
    (env : Env) (now : Int) (db : DB) (st : SessionState) :
    (∀ email password user, email ≠ "" →
      auth email password = .ok user →
      (upsertProfile env (some user) now db { st with loading := true, error := none }).1 = none →
      (login auth env email "" password now db st).result = .error "Failed to load user profile")
    ∧ (∀ username password em user, username ≠ "" →
      dbSelectEmailByUsername db username = some em →
      auth em password = .ok user →
      (upsertProfile env (some user) now db { st with loading := true, error := none }).1 = none →
      (login auth env "" username password now db st).result
        = .error "Failed to load user profile") := by
  constructor
  · intro email password user hemail hauth hup
    rcases hu : upsertProfile env (some user) now db { st with loading := true, error := none }
      with ⟨p, db2, st2⟩
    rw [hu] at hup
    simp only at hup
    subst hup
    simp [login, hemail, hauth, hu]
  · intro username password em user husr hsel hauth hup
    rcases hu : upsertProfile env (some user) now db { st with loading := true, error := none }
      with ⟨p, db2, st2⟩
    rw [hu] at hup
    simp only at hup
    subst hup
    simp [login, husr, hsel, hauth, hu]

/-- C7 witness: authentication succeeds but the insert of the missing profile
row fails, so reconciliation yields none and the login fails. -/
theorem claim_login_profile_load_failure_witness :
    (login (fun _ _ => .ok ⟨"u1", "a@b.c", ⟨"", "", "", ""⟩, "email"⟩) ⟨true⟩
        "a@b.c" "" "pw" 0 ⟨[]⟩ ⟨none, none, false, none⟩).result
      = .error "Failed to load user profile" :=
  (claim_login_profile_load_failure (fun _ _ => .ok ⟨"u1", "a@b.c", ⟨"", "", "", ""⟩, "email"⟩)
      ⟨true⟩ 0 ⟨[]⟩ ⟨none, none, false, none⟩).1
    "a@b.c" "pw" ⟨"u1", "a@b.c", ⟨"", "", "", ""⟩, "email"⟩ (by decide) rfl rfl

/-- C8: for an identity whose provider metadata supplies no username, the
username assigned when reconciliation creates the profile equals the local
part of the email (text before the @) for providers other than "email", and
is left empty for provider "email"; the row inserted by `upsertProfile` for a
missing profile is exactly the derived row. -/
theorem claim_derived_username (u : User) (now : Int) (env : Env) (db : DB)
    (st : SessionState) (hhint : u.user_metadata.username = "") :
    (jsOr u.app_provider "email" ≠ "email" →
      (newProfileRow u now).username = emailLocalPart u.email)
    ∧ (jsOr u.app_provider "email" = "email" → (newProfileRow u now).username = "")
    ∧ (db.profiles.filter (fun p => p.id = u.id) = [] → env.insertFails = false →
        (upsertProfile env (some u) now db st).2.1.profiles
          = db.profiles ++ [newProfileRow u now]) := by
  have hjs : jsOr u.user_metadata.username "" = "" := by
    rw [hhint]
    rfl
  refine ⟨?_, ?_, ?_⟩
  · intro hprov
    show deriveUsername u = emailLocalPart u.email
    simp only [deriveUsername]
    rw [if_pos ⟨hjs, hprov⟩]
  · intro hprov
    show deriveUsername u = ""
    simp only [deriveUsername]
    rw [if_neg (fun h => h.2 hprov)]
    exact hjs
  · intro habs hins
    rw [upsertProfile_absent habs hins now st]

/-- C8 witness: a Google identity with no username hint gets the email local
part "ann" as username, and the row is inserted on first reconciliation. -/
theorem claim_derived_username_witness :
    (newProfileRow ⟨"u1", "ann@ex.com", ⟨"", "", "", ""⟩, "google"⟩ 5).username = "ann"
    ∧ (upsertProfile ⟨false⟩ (some ⟨"u1", "ann@ex.com", ⟨"", "", "", ""⟩, "google"⟩) 5 ⟨[]⟩
        ⟨none, none, false, none⟩).2.1.profiles
      = [newProfileRow ⟨"u1", "ann@ex.com", ⟨"", "", "", ""⟩, "google"⟩ 5] := by
  have h := claim_derived_username ⟨"u1", "ann@ex.com", ⟨"", "", "", ""⟩, "google"⟩ 5 ⟨false⟩
    ⟨[]⟩ ⟨none, none, false, none⟩ rfl
  refine ⟨?_, ?_⟩
  · have h1 := h.1 (by decide)
    rw [h1]
    decide
  · have h3 := h.2.2 rfl rfl
    simpa using h3

/-- Identity is preserved through a profile fetch. -/
theorem fetchUserProfile_currentUser (db : DB) (uid : String) (st : SessionState) :
    (fetchUserProfile db uid st).2.currentUser = st.currentUser := by
  simp only [fetchUserProfile]
  rcases dbSelectById db uid with _ | p <;> rfl

theorem fetchUserProfile_found {db : DB} {uid : String} {p : Profile}
    (h : dbSelectById db uid = some p) (st : SessionState) :
    fetchUserProfile db uid st = (some p, st) := by
  simp [fetchUserProfile, h]

theorem fetchUserProfile_missing {db : DB} {uid : String}
    (h : dbSelectById db uid = none) (st : SessionState) :
    fetchUserProfile db uid st
      = (none, { st with
          error := some "Failed to fetch user profile. Please try again later." }) := by
  simp [fetchUserProfile, h]

/-- The handler with both mounted reads true and a non-null session, with the
`!mounted` early returns reduced away. -/
theorem onAuthStateChange_unfold (env : Env) (event : String) (s : Session)
    (now : Int) (db : DB) (st : SessionState) :
    onAuthStateChange env event (some s) true true now db st
      = (if event = "SIGNED_IN" ∨ event = "USER_UPDATED" then
           match fetchUserProfile db s.user.id { st with currentUser := some s.user } with
           | (profile, st2) =>
             if profile.isNone ∨ event = "SIGNED_IN" then
               match upsertProfile env (some s.user) now db st2 with
               | (_, db2, st3) => (st3, db2)
             else ({ st2 with userProfile := profile }, db)
         else ({ st with currentUser := some s.user }, db)) := rfl

/-- C5 counterexample: a profile row with username "old" exists while the
session metadata carries username "new"; on USER_UPDATED the handler skips
`upsertProfile` entirely and on SIGNED_IN `upsertProfile` skips the write —
in both cases the table is unchanged and the stale row is republished, so the
provider-metadata change is *not* captured by any create/upsert step. -/
theorem claim_event_upsert_counterexample :
    (onAuthStateChange ⟨false⟩ "USER_UPDATED"
        (some ⟨⟨"u1", "a@b.c", ⟨"", "", "", "new"⟩, "google"⟩⟩) true true 5
        ⟨[⟨"u1", "a@b.c", "old", "", "", "google", 0⟩]⟩ ⟨none, none, false, none⟩).2
      = ⟨[⟨"u1", "a@b.c", "old", "", "", "google", 0⟩]⟩
    ∧ (onAuthStateChange ⟨false⟩ "USER_UPDATED"
        (some ⟨⟨"u1", "a@b.c", ⟨"", "", "", "new"⟩, "google"⟩⟩) true true 5
        ⟨[⟨"u1", "a@b.c", "old", "", "", "google", 0⟩]⟩ ⟨none, none, false, none⟩).1.userProfile
      = some ⟨"u1", "a@b.c", "old", "", "", "google", 0⟩
    ∧ (onAuthStateChange ⟨false⟩ "SIGNED_IN"
        (some ⟨⟨"u1", "a@b.c", ⟨"", "", "", "new"⟩, "google"⟩⟩) true true 5
        ⟨[⟨"u1", "a@b.c", "old", "", "", "google", 0⟩]⟩ ⟨none, none, false, none⟩).2
      = ⟨[⟨"u1", "a@b.c", "old", "", "", "google", 0⟩]⟩ := by
  refine ⟨by decide, by decide, by decide⟩

/-- C5 amended: for SIGNED_IN and USER_UPDATED with a non-null session the
handler always sets the identity from the session and runs fetch-or-create
reconciliation, but the create/upsert step executes only when no profile row
exists (inserting exactly the derived row); when a row already exists the
table is left unchanged and the existing row is republished as-is — so
provider-metadata changes are not captured for existing profiles. -/
theorem claim_event_reconciliation_amended (env : Env) (event : String) (u : User)
    (now : Int) (db : DB) (st : SessionState)
    (hev : event = "SIGNED_IN" ∨ event = "USER_UPDATED") :
    ((onAuthStateChange env event (some ⟨u⟩) true true now db st).1.currentUser = some u)
    ∧ (∀ p : Profile, dbSelectById db u.id = some p →
        (onAuthStateChange env event (some ⟨u⟩) true true now db st).2 = db
        ∧ (onAuthStateChange env event (some ⟨u⟩) true true now db st).1.userProfile = some p)
    ∧ (db.profiles.filter (fun p => p.id = u.id) = [] → env.insertFails = false →
        (onAuthStateChange env event (some ⟨u⟩) true true now db st).2.profiles
          = db.profiles ++ [newProfileRow u now]
        ∧ (onAuthStateChange env event (some ⟨u⟩) true true now db st).1.userProfile
          = some (newProfileRow u now)) := by
  refine ⟨?_, ?_, ?_⟩
  · -- the identity is set on every path
    rcases hsel : dbSelectById db u.id with _ | p
    · have hcu := upsertProfile_currentUser env (some u) now db
        { st with currentUser := some u,
                  error := some "Failed to fetch user profile. Please try again later." }
      rcases hu : upsertProfile env (some u) now db
          { st with currentUser := some u,
                    error := some "Failed to fetch user profile. Please try again later." }
        with ⟨q, db2, st3⟩
      rw [hu] at hcu
      simp only [onAuthStateChange_unfold, if_pos hev, fetchUserProfile_missing hsel]
      simp only [Option.isNone_none, true_or, if_true, hu]
      simpa using hcu
    · simp only [onAuthStateChange_unfold, if_pos hev, fetchUserProfile_found hsel,
        upsertProfile_found hsel]
      by_cases hcond : (some p).isNone = true ∨ event = "SIGNED_IN"
      · simp [hcond]
      · simp [hcond]
  · -- an existing row: no write, the row is republished
    intro p hsel
    simp only [onAuthStateChange_unfold, if_pos hev, fetchUserProfile_found hsel,
      upsertProfile_found hsel]
    by_cases hcond : (some p).isNone = true ∨ event = "SIGNED_IN"
    · simp [hcond]
    · simp [hcond]
  · -- no row: the derived row is inserted and published
    intro habs hins
    have hsel : dbSelectById db u.id = none := dbSelectById_absent habs
    simp [onAuthStateChange_unfold, if_pos hev, fetchUserProfile_missing hsel,
      upsertProfile_absent habs hins]

/-- C5 amended witness: SIGNED_IN against a table that already holds the row. -/
theorem claim_event_reconciliation_amended_witness :
    (onAuthStateChange ⟨false⟩ "SIGNED_IN"
        (some ⟨⟨"u1", "a@b.c", ⟨"", "", "", "new"⟩, "google"⟩⟩) true true 5
        ⟨[⟨"u1", "a@b.c", "old", "", "", "google", 0⟩]⟩ ⟨none, none, false, none⟩).2
      = ⟨[⟨"u1", "a@b.c", "old", "", "", "google", 0⟩]⟩
    ∧ (onAuthStateChange ⟨false⟩ "SIGNED_IN"
        (some ⟨⟨"u1", "a@b.c", ⟨"", "", "", "new"⟩, "google"⟩⟩) true true 5
        ⟨[⟨"u1", "a@b.c", "old", "", "", "google", 0⟩]⟩ ⟨none, none, false, none⟩).1.userProfile
      = some ⟨"u1", "a@b.c", "old", "", "", "google", 0⟩ :=
  (claim_event_reconciliation_amended ⟨false⟩ "SIGNED_IN"
      ⟨"u1", "a@b.c", ⟨"", "", "", "new"⟩, "google"⟩ 5
      ⟨[⟨"u1", "a@b.c", "old", "", "", "google", 0⟩]⟩ ⟨none, none, false, none⟩
      (Or.inl rfl)).2.1
    ⟨"u1", "a@b.c", "old", "", "", "google", 0⟩ (by decide)

/-! ## Lemmas for the interleaved reconciliation -/

theorem newProfileRow_id (u : User) (now : Int) : (newProfileRow u now).id = u.id := rfl

theorem countId_of_dbSelectById_some {db : DB} {uid : String} {p : Profile}
    (h : dbSelectById db uid = some p) : countId db uid = 1 := by
  unfold dbSelectById at h
  unfold countId
  rcases hf : db.profiles.filter (fun q => q.id = uid) with _ | ⟨a, rest⟩
  · rw [hf] at h
    cases h
  · rcases rest with _ | ⟨b, rest2⟩
    · rw [hf]
      rfl
    · rw [hf] at h
      cases h

theorem dbSelectById_of_countId_one {db : DB} {uid : String}
    (h : countId db uid = 1) : ∃ p, dbSelectById db uid = some p := by
  unfold countId at h
  rcases List.length_eq_one.1 h with ⟨p, hp⟩
  exact ⟨p, dbSelectById_found hp⟩

theorem countId_dbUpsert {db : DB} {u : User} {now : Int}
    (hle : countId db u.id ≤ 1) :
    countId (dbUpsert db (newProfileRow u now)) u.id = 1 := by
  by_cases hany : db.profiles.any (fun p => p.id = (newProfileRow u now).id) = true
  · rw [dbUpsert, if_pos hany]
    rcases List.any_eq_true.1 hany with ⟨p, hp, hpid⟩
    rw [newProfileRow_id] at hpid
    have hmem : p ∈ db.profiles.filter (fun p => p.id = u.id) :=
      List.mem_filter.2 ⟨hp, hpid⟩
    have h1 : 1 ≤ countId db u.id :=
      List.length_pos.2 (List.ne_nil_of_mem hmem)
    omega
  · rw [dbUpsert, if_neg hany]
    have hnil : db.profiles.filter (fun p => p.id = u.id) = [] := by
      rw [List.filter_eq_nil_iff]
      intro p hp hpid
      exact hany (List.any_eq_true.2 ⟨p, hp, by rw [newProfileRow_id]; exact hpid⟩)
    unfold countId
    rw [List.filter_append, hnil]
    simp [newProfileRow_id]

/-- One store operation preserves the race invariant (for the stepping run
and for the other run alike). -/
theorem reconStep_inv (u : User) (nw : Int) (r other : RunState) (db : DB)
    (hle : countId db u.id ≤ 1) (hr : RunInv u.id db r) (hother : RunInv u.id db other) :
    countId (reconStep u nw r db).2 u.id ≤ 1
    ∧ RunInv u.id (reconStep u nw r db).2 (reconStep u nw r db).1
    ∧ RunInv u.id (reconStep u nw r db).2 other := by
  rcases hpc : r.pc with _ | _ | _ | n
  · -- about to fetch
    rcases hsel : dbSelectById db u.id with _ | p
    · simp only [reconStep, hpc, hsel]
      refine ⟨hle, ⟨?_, ?_⟩, hother⟩
      · intro h
        rcases h with h | h <;> simp at h
      · intro h
        simp at h
    · simp only [reconStep, hpc, hsel]
      refine ⟨hle, ⟨?_, ?_⟩, hother⟩
      · intro _
        exact countId_of_dbSelectById_some hsel
      · intro _
        rfl
  · -- about to upsert
    have hcnt : countId (dbUpsert db (newProfileRow u nw)) u.id = 1 := countId_dbUpsert hle
    simp only [reconStep, hpc]
    refine ⟨by omega, ⟨fun _ => hcnt, ?_⟩, ⟨fun _ => hcnt, hother.2⟩⟩
    intro h
    simp at h
  · -- about to re-fetch
    have hcnt : countId db u.id = 1 := hr.1 (Or.inl hpc)
    obtain ⟨p, hp⟩ := dbSelectById_of_countId_one hcnt
    simp only [reconStep, hpc]
    refine ⟨hle, ⟨fun _ => hcnt, fun _ => ?_⟩, hother⟩
    rw [hp]
    rfl
  · -- done: no-op
    simp only [reconStep, hpc]
    exact ⟨hle, hr, hother⟩

theorem stepConfig_inv (u : User) (n1 n2 : Int) (b : Bool) (c : Config)
    (h : Inv u.id c) : Inv u.id (stepConfig u n1 n2 b c) := by
  obtain ⟨hle, h1, h2⟩ := h
  cases b
  · have hstep := reconStep_inv u n2 c.r2 c.r1 c.db hle h2 h1
    rcases hs : reconStep u n2 c.r2 c.db with ⟨r2n, dbn⟩
    rw [hs] at hstep
    simp only [Inv, stepConfig, hs, Bool.false_eq_true, if_false]
    exact ⟨hstep.1, hstep.2.2, hstep.2.1⟩
  · have hstep := reconStep_inv u n1 c.r1 c.r2 c.db hle h1 h2
    rcases hs : reconStep u n1 c.r1 c.db with ⟨r1n, dbn⟩
    rw [hs] at hstep
    simp only [Inv, stepConfig, hs, if_true]
    exact ⟨hstep.1, hstep.2.1, hstep.2.2⟩

theorem execSchedule_inv (u : User) (n1 n2 : Int) (sched : List Bool) (c : Config)
    (h : Inv u.id c) : Inv u.id (execSchedule u n1 n2 sched c) := by
  induction sched generalizing c with
  | nil => exact h
  | cons b rest ih => exact ih _ (stepConfig_inv u n1 n2 b c h)

/-- C9: two reconciliations for the same identity racing under any
interleaving finish — whenever both complete — with exactly one profile row
for that identity in the table, and both publish a profile (no error), the
upsert conflict policy making the race idempotent. -/
theorem claim_reconcile_race_idempotent (u : User) (n1 n2 : Int) (db0 : DB)
    (sched : List Bool) (hinit : countId db0 u.id ≤ 1)
    (hdone1 : (execSchedule u n1 n2 sched ⟨⟨0, none⟩, ⟨0, none⟩, db0⟩).r1.pc = 3)
    (hdone2 : (execSchedule u n1 n2 sched ⟨⟨0, none⟩, ⟨0, none⟩, db0⟩).r2.pc = 3) :
    countId (execSchedule u n1 n2 sched ⟨⟨0, none⟩, ⟨0, none⟩, db0⟩).db u.id = 1
    ∧ (execSchedule u n1 n2 sched ⟨⟨0, none⟩, ⟨0, none⟩, db0⟩).r1.result.isSome = true
    ∧ (execSchedule u n1 n2 sched ⟨⟨0, none⟩, ⟨0, none⟩, db0⟩).r2.result.isSome = true := by
  have hinv0 : Inv u.id ⟨⟨0, none⟩, ⟨0, none⟩, db0⟩ := by
    refine ⟨hinit, ⟨?_, ?_⟩, ⟨?_, ?_⟩⟩ <;> intro h
    · rcases h with h | h <;> simp at h
    · simp at h
    · rcases h with h | h <;> simp at h
    · simp at h
  obtain ⟨hle, ⟨ha1, hb1⟩, ⟨ha2, hb2⟩⟩ := execSchedule_inv u n1 n2 sched _ hinv0
  exact ⟨ha1 (Or.inr hdone1), hb1 hdone1, hb2 hdone2⟩

/-- C9 witness: schedule r1, r1, r1, r2 over an empty table — the first run
inserts the row, the second finds it; one row, both succeed. -/
theorem claim_reconcile_race_idempotent_witness :
    countId (execSchedule ⟨"u1", "a@b.c", ⟨"", "", "", ""⟩, "google"⟩ 1 2
        [true, true, true, false] ⟨⟨0, none⟩, ⟨0, none⟩, ⟨[]⟩⟩).db "u1" = 1
    ∧ (execSchedule ⟨"u1", "a@b.c", ⟨"", "", "", ""⟩, "google"⟩ 1 2
        [true, true, true, false] ⟨⟨0, none⟩, ⟨0, none⟩, ⟨[]⟩⟩).r1.result.isSome = true
    ∧ (execSchedule ⟨"u1", "a@b.c", ⟨"", "", "", ""⟩, "google"⟩ 1 2
        [true, true, true, false] ⟨⟨0, none⟩, ⟨0, none⟩, ⟨[]⟩⟩).r2.result.isSome = true :=
  claim_reconcile_race_idempotent ⟨"u1", "a@b.c", ⟨"", "", "", ""⟩, "google"⟩ 1 2 ⟨[]⟩
    [true, true, true, false] (by decide) (by decide) (by decide)

end Nirvaha
